import Mathlib

/-
Verification of the concurrency-limiting primitives of the moon7-async
library: the counting `Semaphore` (src/semaphore.ts), the `TaskPool`
(src/task-pool.ts) and the capacity-1 `Mutex`.

The source runs on a single-threaded cooperative scheduler, so its
behaviour is a deterministic state machine.  We embed the semaphore
state shallowly: release-token closures become token ids together with
the set of ids whose `released` flag has been set, the wait queue of
grant callbacks becomes the list of waiter ids in enqueue order, and
each public operation becomes a pure function from state to state
(returning, where the source does, the token issued or the boolean
result and the hand-off grant performed).
-/

namespace MoonAsync

/-- State of a `Semaphore` (src/semaphore.ts).
`capacity` and `count` are the fields of the class (`count` is exposed as
`used`); `queue` holds the waiter ids of the pending grant callbacks in
enqueue order.  `nextId` is a source of fresh token ids; `issued` lists
every token id handed out so far (each `release()` closure created), and
`releasedSet` lists the ids whose `released` flag is `true`. -/
structure Sem where
  capacity : Int
  count : Int
  queue : List Nat
  nextId : Nat
  issued : List Nat
  releasedSet : List Nat
  deriving Repr, DecidableEq

/-- The state a freshly constructed semaphore starts in:
`count = 0`, empty queue, no tokens issued. -/
def initSem (cap : Int) : Sem :=
  { capacity := cap, count := 0, queue := [], nextId := 0
    issued := [], releasedSet := [] }

/-- The constructor (src/semaphore.ts lines 19-24).  The argument is a
JS number, modelled as an exact rational so that `Number.isInteger` is
`q.den = 1`; the guard is `capacity <= 0 || !Number.isInteger(capacity)`. -/
def mkSem (q : ℚ) : Except String Sem :=
  if q ≤ 0 ∨ q.den ≠ 1 then
    .error "Semaphore capacity must be a positive integer"
  else
    .ok (initSem q.num)

/-- TaskPool's constructor (src/task-pool.ts lines 9-11) just builds the
inner semaphore with the pool's concurrency as its capacity. -/
def mkPool (q : ℚ) : Except String Sem :=
  mkSem q

/-- The state change shared by the fast path of `tryAcquire` and
`acquire`: `this.count++` followed by `this.release()`, which creates a
fresh not-yet-released token closure. -/
def grantTo (s : Sem) : Sem :=
  { s with count := s.count + 1, nextId := s.nextId + 1
           issued := s.issued ++ [s.nextId] }

/-- `Semaphore.tryAcquire` (lines 38-44): if `count < capacity`,
increment the counter and hand out a fresh release token; otherwise
return `null` and change nothing. -/
def tryAcquire (s : Sem) : Option Nat × Sem :=
  if s.count < s.capacity then
    (some s.nextId, grantTo s)
  else
    (none, s)

/-- Outcome of `acquire`: either a token granted synchronously, or the
caller was suspended and a wait entry appended to the queue. -/
inductive AcqRes where
  | granted (tok : Nat)
  | queuedUp
  deriving Repr, DecidableEq

/-- `Semaphore.acquire` (lines 50-63): fast path identical to
`tryAcquire`; at capacity it appends the caller's grant callback to the
tail of the queue (the callback will run `this.count++` and resolve the
caller's future with a fresh token when invoked by `release`). -/
def acquire (s : Sem) (wid : Nat) : AcqRes × Sem :=
  if s.count < s.capacity then
    (.granted s.nextId, grantTo s)
  else
    (.queuedUp, { s with queue := s.queue ++ [wid] })

/-- Invoking the release token `t` (the closure built in lines 65-82):
returns the boolean result, the new state, and—when the freed slot is
handed to a queued waiter—the pair (waiter id, fresh token id granted
to it).  The source: if the token's flag is set or `count <= 0`, return
`false` with no change; otherwise set the flag, decrement `count`, and
if the queue is non-empty and `count < capacity`, shift the head
callback and run it (`count++`, resolve with a fresh token). -/
def releaseTok (s : Sem) (t : Nat) : Bool × Sem × Option (Nat × Nat) :=
  if t ∈ s.releasedSet ∨ s.count ≤ 0 then
    (false, s, none)
  else
    let s1 : Sem := { s with releasedSet := t :: s.releasedSet, count := s.count - 1 }
    match s.queue with
    | [] => (true, s1, none)
    | w :: rest =>
      if s1.count < s1.capacity then
        (true,
         { s1 with queue := rest, count := s1.count + 1, nextId := s1.nextId + 1
                   issued := s1.issued ++ [s1.nextId] },
         some (w, s1.nextId))
      else
        (true, s1, none)

/-- One externally triggered operation on a semaphore. -/
inductive Op where
  | tryAcq
  | acq (wid : Nat)
  | rel (tok : Nat)
  deriving Repr, DecidableEq

/-- The state after one operation. -/
def step (s : Sem) : Op → Sem
  | .tryAcq => (tryAcquire s).2
  | .acq w => (acquire s w).2
  | .rel t => (releaseTok s t).2.1

/-- The state after a sequence of operations. -/
def run (s : Sem) : List Op → Sem
  | [] => s
  | op :: rest => run (step s op) rest

/-- The waiter ids granted a permit by queue hand-off, in the order the
grants happen, along a sequence of operations. -/
def grantLog (s : Sem) : List Op → List Nat
  | [] => []
  | op :: rest =>
    (match op with
     | .rel t =>
       (match (releaseTok s t).2.2 with
        | some (w, _) => [w]
        | none => [])
     | _ => []) ++ grantLog (step s op) rest

/-- An operation is well formed when any token it releases is one the
semaphore actually issued (in the source, release closures exist only
for issued tokens, so no other call is expressible). -/
def wfOp (s : Sem) : Op → Bool
  | .rel t => decide (t ∈ s.issued)
  | _ => true

/-- A sequence of operations each well formed in the state it runs in. -/
def wfRun (s : Sem) : List Op → Bool
  | [] => true
  | op :: rest => wfOp s op && wfRun (step s op) rest

/-- Number of outstanding tokens: issued and not yet released. -/
def outstanding (s : Sem) : Nat :=
  (s.issued.filter (fun t => decide (t ∉ s.releasedSet))).length

/-- The inductive invariant of the semaphore state: capacity positive,
`0 ≤ count ≤ capacity`, a non-empty queue forces `count = capacity`,
token bookkeeping is consistent (issued ids distinct and below `nextId`,
released ids were issued), and `count` equals the number of outstanding
tokens. -/
def Inv (s : Sem) : Prop :=
  1 ≤ s.capacity ∧ 0 ≤ s.count ∧ s.count ≤ s.capacity ∧
  (s.queue ≠ [] → s.count = s.capacity) ∧
  s.issued.Nodup ∧ (∀ t ∈ s.issued, t < s.nextId) ∧
  (∀ t ∈ s.releasedSet, t ∈ s.issued) ∧
  s.count = (outstanding s : Int)

instance (s : Sem) : Decidable (Inv s) := by
  unfold Inv
  infer_instance

/-- `Semaphore.use` (lines 84-91) in the cooperative model, for the case
the permit is immediately available: acquire, evaluate the body to its
outcome, and release in the `finally` block; the outcome propagates
unchanged.  When `acquire` would enqueue, the call does not complete
within this single-caller model and `none` is returned. -/
def useRun (s : Sem) (body : Except ε α) : Option (Except ε α × Sem) :=
  match acquire s 0 with
  | (.granted t, s1) => some (body, (releaseTok s1 t).2.1)
  | (.queuedUp, _) => none

/-- `TaskPool.submit` (src/task-pool.ts lines 21-23) is exactly
`semaphore.use(task)`. -/
def submitRun (s : Sem) (task : Except ε α) : Option (Except ε α × Sem) :=
  useRun s task

/-- How `Promise.all` combines the per-task outcomes when the tasks
complete in submission order: all successes give the ordered list of
values, otherwise the first failure's error. -/
def collect : List (Except ε α) → Except ε (List α)
  | [] => .ok []
  | r :: rest =>
    match r with
    | .error e => .error e
    | .ok v =>
      match collect rest with
      | .ok vs => .ok (v :: vs)
      | .error e => .error e

/-- `TaskPool.submitAll` (lines 25-27) in the cooperative model with
non-suspending task bodies: each task goes through `submit` and the
outcomes are combined positionally as `Promise.all` does. -/
def submitAll (s : Sem) : List (Except ε α) → Option (Except ε (List α) × Sem)
  | [] => some (.ok [], s)
  | task :: rest =>
    match submitRun s task with
    | none => none
    | some (r, s1) =>
      match submitAll s1 rest with
      | none => none
      | some (rs, s2) =>
        match r with
        | .error e => some (.error e, s2)
        | .ok v =>
          match rs with
          | .ok vs => some (.ok (v :: vs), s2)
          | .error e => some (.error e, s2)

/-- Release branch: already-released token or `count <= 0` is a no-op
returning false. -/
theorem releaseTok_noop (s : Sem) (t : Nat) (h : t ∈ s.releasedSet ∨ s.count ≤ 0) :
    releaseTok s t = (false, s, none) := by
  unfold releaseTok
  rw [if_pos h]

/-- Release branch: empty queue, so the counter is decremented and nobody
is granted the slot. -/
theorem releaseTok_empty (s : Sem) (t : Nat) (ht : t ∉ s.releasedSet) (hpos : 0 < s.count)
    (hq : s.queue = []) :
    releaseTok s t =
      (true, { s with releasedSet := t :: s.releasedSet, count := s.count - 1 }, none) := by
  unfold releaseTok
  rw [if_neg (by push_neg; exact ⟨ht, by omega⟩)]
  simp only [hq]

/-- Release branch: a waiter is queued and the decremented counter is below
capacity, so the head waiter is granted the slot with a fresh token. -/
theorem releaseTok_handoff (s : Sem) (t w : Nat) (rest : List Nat)
    (ht : t ∉ s.releasedSet) (hpos : 0 < s.count) (hq : s.queue = w :: rest)
    (hlt : s.count - 1 < s.capacity) :
    releaseTok s t =
      (true,
       { s with releasedSet := t :: s.releasedSet, count := s.count - 1 + 1, queue := rest,
                nextId := s.nextId + 1, issued := s.issued ++ [s.nextId] },
       some (w, s.nextId)) := by
  unfold releaseTok
  rw [if_neg (by push_neg; exact ⟨ht, by omega⟩)]
  simp only [hq]
  rw [if_pos hlt]

/-- Release branch: a waiter is queued but the decremented counter still
reaches capacity, so no hand-off happens (unreachable under `Inv`). -/
theorem releaseTok_full (s : Sem) (t w : Nat) (rest : List Nat)
    (ht : t ∉ s.releasedSet) (hpos : 0 < s.count) (hq : s.queue = w :: rest)
    (hge : ¬ s.count - 1 < s.capacity) :
    releaseTok s t =
      (true, { s with releasedSet := t :: s.releasedSet, count := s.count - 1 }, none) := by
  unfold releaseTok
  rw [if_neg (by push_neg; exact ⟨ht, by omega⟩)]
  simp only [hq]
  rw [if_neg hge]

/-- Appending a token id that is not in the released set adds one to the
count of unreleased ids. -/
theorem filter_notMem_append_fresh (l rs : List Nat) (a : Nat) (ha : a ∉ rs) :
    ((l ++ [a]).filter (fun t => decide (t ∉ rs))).length
      = (l.filter (fun t => decide (t ∉ rs))).length + 1 := by
  rw [List.filter_append, List.length_append]
  have h2 : decide (a ∉ rs) = true := by simpa using ha
  simp [List.filter_cons, h2, ha]

/-- Marking one issued, not-yet-released id as released removes exactly one
id from the count of unreleased ids (issued ids being distinct). -/
theorem filter_release_length (l rs : List Nat) (t : Nat)
    (hnd : l.Nodup) (hmem : t ∈ l) (hnr : t ∉ rs) :
    (l.filter (fun x => decide (x ∉ t :: rs))).length + 1
      = (l.filter (fun x => decide (x ∉ rs))).length := by
  induction l with
  | nil => cases hmem
  | cons a l ih =>
    rcases List.nodup_cons.mp hnd with ⟨hal, hl⟩
    rw [List.filter_cons, List.filter_cons]
    by_cases hat : a = t
    · subst hat
      have h1 : decide (a ∉ a :: rs) = false := by simp
      have h2 : decide (a ∉ rs) = true := by simpa using hnr
      rw [h1, h2]
      simp only [Bool.false_eq_true, if_false, if_true, List.length_cons]
      have hfc : l.filter (fun x => decide (x ∉ a :: rs)) = l.filter (fun x => decide (x ∉ rs)) :=
        List.filter_congr (fun x hx => by
          have hxa : x ≠ a := fun h => hal (h ▸ hx)
          simp [hxa])
      rw [hfc]
    · have htl : t ∈ l := by
        rcases List.mem_cons.mp hmem with h | h
        · exact absurd h.symm hat
        · exact h
      have heq : decide (a ∉ t :: rs) = decide (a ∉ rs) := by
        by_cases har : a ∈ rs
        · simp [har]
        · simp [har, hat]
      rw [heq]
      by_cases har : a ∈ rs
      · have h2 : decide (a ∉ rs) = false := by simp [har]
        rw [h2]
        simp only [Bool.false_eq_true, if_false]
        exact ih hl htl
      · have h2 : decide (a ∉ rs) = true := by simpa using har
        rw [h2]
        simp only [if_true, List.length_cons]
        have := ih hl htl
        omega

/-- The next token id has never been issued. -/
theorem fresh_not_issued (s : Sem) (h6 : ∀ t ∈ s.issued, t < s.nextId) :
    s.nextId ∉ s.issued :=
  fun hm => absurd (h6 _ hm) (lt_irrefl _)

/-- The next token id is not in the released set. -/
theorem fresh_not_released (s : Sem) (h6 : ∀ t ∈ s.issued, t < s.nextId)
    (h7 : ∀ t ∈ s.releasedSet, t ∈ s.issued) : s.nextId ∉ s.releasedSet :=
  fun hm => absurd (h6 _ (h7 _ hm)) (lt_irrefl _)

/-- Granting a fresh token increases the outstanding count by one. -/
theorem outstanding_grantTo (s : Sem) (hfr : s.nextId ∉ s.releasedSet) :
    outstanding (grantTo s) = outstanding s + 1 :=
  filter_notMem_append_fresh s.issued s.releasedSet s.nextId hfr

/-- The fast acquisition path preserves the invariant when a permit is
free. -/
theorem inv_grantTo (s : Sem) (h : Inv s) (hlt : s.count < s.capacity) : Inv (grantTo s) := by
  obtain ⟨h1, h2, h3, h4, h5, h6, h7, h8⟩ := h
  have hq : s.queue = [] := by
    by_contra hne
    have := h4 hne
    omega
  have hfr := fresh_not_released s h6 h7
  have hfi := fresh_not_issued s h6
  have hout := outstanding_grantTo s hfr
  refine ⟨h1, by simp [grantTo]; omega, by simp [grantTo]; omega, ?_, ?_, ?_, ?_, ?_⟩
  · intro hne
    exact absurd hq (by simpa [grantTo] using hne)
  · show (s.issued ++ [s.nextId]).Nodup
    rw [List.nodup_append_comm]
    simp [List.nodup_cons, h5, hfi]
  · intro t htm
    rcases List.mem_append.mp htm with hmm | hmm
    · exact Nat.lt_succ_of_lt (h6 _ hmm)
    · show t < s.nextId + 1
      simp at hmm
      omega
  · intro t htm
    exact List.mem_append_left _ (h7 _ htm)
  · show s.count + 1 = ((outstanding (grantTo s) : Nat) : Int)
    rw [hout]
    push_cast
    omega

/-- `tryAcquire` preserves the invariant. -/
theorem inv_tryAcquire (s : Sem) (h : Inv s) : Inv (tryAcquire s).2 := by
  unfold tryAcquire
  by_cases hlt : s.count < s.capacity
  · rw [if_pos hlt]
    exact inv_grantTo s h hlt
  · rw [if_neg hlt]
    exact h

/-- `acquire` preserves the invariant. -/
theorem inv_acquire (s : Sem) (w : Nat) (h : Inv s) : Inv (acquire s w).2 := by
  unfold acquire
  by_cases hlt : s.count < s.capacity
  · rw [if_pos hlt]
    exact inv_grantTo s h hlt
  · rw [if_neg hlt]
    obtain ⟨h1, h2, h3, h4, h5, h6, h7, h8⟩ := h
    have hcap : s.count = s.capacity := by omega
    exact ⟨h1, h2, h3, fun _ => hcap, h5, h6, h7, h8⟩

/-- Releasing an issued token preserves the invariant. -/
theorem inv_releaseTok (s : Sem) (t : Nat) (h : Inv s) (hiss : t ∈ s.issued) :
    Inv (releaseTok s t).2.1 := by
  obtain ⟨h1, h2, h3, h4, h5, h6, h7, h8⟩ := h
  by_cases hg : t ∈ s.releasedSet ∨ s.count ≤ 0
  · rw [releaseTok_noop s t hg]
    exact ⟨h1, h2, h3, h4, h5, h6, h7, h8⟩
  · push_neg at hg
    obtain ⟨hrel, hpos⟩ := hg
    have hpos' : 0 < s.count := by omega
    have hout1 := filter_release_length s.issued s.releasedSet t h5 hiss hrel
    have hrsub : ∀ u ∈ t :: s.releasedSet, u ∈ s.issued := by
      intro u hu
      rcases List.mem_cons.mp hu with hu | hu
      · exact hu ▸ hiss
      · exact h7 _ hu
    have htlt : t < s.nextId := h6 _ hiss
    unfold outstanding at h8
    rcases hq : s.queue with _ | ⟨w, rest⟩
    · rw [releaseTok_empty s t hrel hpos' hq]
      refine ⟨h1, by dsimp only; omega, by dsimp only; omega,
        fun hne => absurd hq hne, h5, h6, hrsub, ?_⟩
      unfold outstanding
      dsimp only
      omega
    · have hlt1 : s.count - 1 < s.capacity := by omega
      rw [releaseTok_handoff s t w rest hrel hpos' hq hlt1]
      have hqe : s.queue ≠ [] := by rw [hq]; exact List.cons_ne_nil w rest
      have hful := h4 hqe
      have hfi := fresh_not_issued s h6
      have hfr := fresh_not_released s h6 h7
      have hfr2 : s.nextId ∉ t :: s.releasedSet := by
        intro hm
        rcases List.mem_cons.mp hm with hm | hm
        · omega
        · exact hfr hm
      have hout2 := filter_notMem_append_fresh s.issued (t :: s.releasedSet) s.nextId hfr2
      refine ⟨h1, by dsimp only; omega, by dsimp only; omega, fun _ => by dsimp only; omega,
        ?_, ?_, ?_, ?_⟩
      · show (s.issued ++ [s.nextId]).Nodup
        rw [List.nodup_append_comm]
        simp [List.nodup_cons, h5, hfi]
      · intro u hu
        show u < s.nextId + 1
        rcases List.mem_append.mp hu with hu | hu
        · have := h6 _ hu
          omega
        · simp at hu
          omega
      · intro u hu
        exact List.mem_append_left _ (hrsub _ hu)
      · unfold outstanding
        dsimp only
        omega

/-- Every well-formed operation preserves the invariant. -/
theorem inv_step (s : Sem) (op : Op) (h : Inv s) (hwf : wfOp s op = true) : Inv (step s op) := by
  cases op with
  | tryAcq => exact inv_tryAcquire s h
  | acq w => exact inv_acquire s w h
  | rel t =>
    have hiss : t ∈ s.issued := by simpa [wfOp] using hwf
    exact inv_releaseTok s t h hiss

/-- Every well-formed operation sequence preserves the invariant. -/
theorem inv_run (s : Sem) (ops : List Op) (h : Inv s) (hwf : wfRun s ops = true) :
    Inv (run s ops) := by
  induction ops generalizing s with
  | nil => exact h
  | cons op rest ih =>
    have hwf2 : wfOp s op = true ∧ wfRun (step s op) rest = true := by
      simpa [wfRun, Bool.and_eq_true] using hwf
    exact ih (step s op) (inv_step s op h hwf2.1) hwf2.2

/-- The initial state of a positive-capacity semaphore satisfies the
invariant. -/
theorem inv_initSem (cap : Int) (hcap : 1 ≤ cap) : Inv (initSem cap) :=
  ⟨hcap, by simp [initSem], by simp [initSem]; omega, by simp [initSem],
   by simp [initSem], by simp [initSem], by simp [initSem], by simp [initSem, outstanding]⟩

/-- A successful construction means the capacity was a positive integer
and the state is the initial one. -/
theorem mkSem_ok (q : ℚ) (s : Sem) (h : mkSem q = .ok s) :
    (0 < q ∧ q.den = 1) ∧ s = initSem q.num := by
  unfold mkSem at h
  by_cases hc : q ≤ 0 ∨ q.den ≠ 1
  · rw [if_pos hc] at h
    cases h
  · rw [if_neg hc] at h
    push_neg at hc
    cases h
    exact ⟨⟨hc.1, hc.2⟩, rfl⟩

/-- C1: queued acquirers are granted permits strictly in enqueue order.
Every hand-off grant of `release` goes to the head of the wait queue
(`acquire` appends at the tail, so the queue lists waiters in enqueue
order and no later waiter is served while an earlier one waits); and in
the concrete capacity-1 scenario where the permit is held and A = 1,
B = 2, C = 3 enqueue in that order, the successive releases grant
exactly in the order [1, 2, 3]. -/
theorem c1_fifo_order :
    (∀ (s : Sem) (t : Nat) (b : Bool) (s' : Sem) (w tok : Nat),
      releaseTok s t = (b, s', some (w, tok)) → s.queue = w :: s'.queue) ∧
    grantLog (initSem 1) [.acq 0, .acq 1, .acq 2, .acq 3, .rel 0, .rel 1, .rel 2]
      = [1, 2, 3] := by
  constructor
  · intro s t b s' w tok heq
    by_cases hg : t ∈ s.releasedSet ∨ s.count ≤ 0
    · rw [releaseTok_noop s t hg] at heq
      simp at heq
    · push_neg at hg
      rcases hqq : s.queue with _ | ⟨w1, rest⟩
      · rw [releaseTok_empty s t hg.1 (by omega) hqq] at heq
        simp at heq
      · by_cases hlt : s.count - 1 < s.capacity
        · rw [releaseTok_handoff s t w1 rest hg.1 (by omega) hqq hlt] at heq
          simp only [Prod.mk.injEq, Option.some.injEq] at heq
          obtain ⟨hb, hs', hw, htok⟩ := heq
          rw [← hs', ← hw]
        · rw [releaseTok_full s t w1 rest hg.1 (by omega) hqq hlt] at heq
          simp at heq
  · decide

/-- Witness for C1 at the held capacity-1 semaphore with waiter 7 queued. -/
theorem c1_fifo_order_witness :
    (run (initSem 1) [.acq 5, .acq 7]).queue
      = 7 :: ((releaseTok (run (initSem 1) [.acq 5, .acq 7]) 0).2.1).queue :=
  c1_fifo_order.1 (run (initSem 1) [.acq 5, .acq 7]) 0 true
    ((releaseTok (run (initSem 1) [.acq 5, .acq 7]) 0).2.1) 7 1 (by decide)

/-- Every state reachable from a successful construction through
well-formed operations satisfies the invariant. -/
theorem inv_reach (q : ℚ) (s : Sem) (ops : List Op)
    (hmk : mkSem q = .ok s) (hwf : wfRun s ops = true) : Inv (run s ops) := by
  obtain ⟨⟨hq, hden⟩, rfl⟩ := mkSem_ok q s hmk
  have hnum : 1 ≤ q.num := by
    have := Rat.num_pos.mpr hq
    omega
  exact inv_run _ ops (inv_initSem q.num hnum) hwf

/-- C2: for every semaphore built by the constructor and every well-formed
sequence of operations (covering tryAcquire, acquire, token release with
its queue hand-off, and hence use), `0 ≤ used ≤ capacity` holds in the
resulting state; taking the empty sequence gives the initial state, so
the invariant holds at every observable instant between operations. -/
theorem c2_counter_bounds (q : ℚ) (s : Sem) (ops : List Op)
    (hmk : mkSem q = .ok s) (hwf : wfRun s ops = true) :
    0 ≤ (run s ops).count ∧ (run s ops).count ≤ (run s ops).capacity := by
  have h := inv_reach q s ops hmk hwf
  exact ⟨h.2.1, h.2.2.1⟩

/-- Witness for C2 on a capacity-2 semaphore and a four-operation run. -/
theorem c2_counter_bounds_witness :
    0 ≤ (run (initSem 2) [.tryAcq, .acq 4, .rel 0, .rel 1]).count ∧
    (run (initSem 2) [.tryAcq, .acq 4, .rel 0, .rel 1]).count
      ≤ (run (initSem 2) [.tryAcq, .acq 4, .rel 0, .rel 1]).capacity :=
  c2_counter_bounds 2 (initSem 2) [.tryAcq, .acq 4, .rel 0, .rel 1] (by rfl) (by decide)

/-- C3 fails as stated: on a capacity-1 semaphore whose permit is held by
token 0 while a waiter is queued (reached by two acquires from a fresh
semaphore), the first invocation of token 0's release returns true yet
leaves `used` at 1 rather than decrementing it by exactly 1, because the
hand-off re-increments the counter on the head waiter's behalf. -/
theorem c3_counterexample :
    (releaseTok (run (initSem 1) [.acq 5, .acq 7]) 0).1 = true ∧
    (run (initSem 1) [.acq 5, .acq 7]).count = 1 ∧
    ¬ ((releaseTok (run (initSem 1) [.acq 5, .acq 7]) 0).2.1.count
        = (run (initSem 1) [.acq 5, .acq 7]).count - 1) := by
  decide

/-- C3 amended: the first invocation of a valid outstanding token's
release returns true; it decrements `used` by exactly 1 when no hand-off
occurs (in particular whenever the wait queue is empty), while a
hand-off grant leaves `used` unchanged; any subsequent invocation on the
same token returns false and changes nothing, and any invocation made
when `used` is already 0 returns false and changes nothing. -/
theorem c3_release_idempotent (s : Sem) (t : Nat)
    (hrel : t ∉ s.releasedSet) (hpos : 0 < s.count) :
    (releaseTok s t).1 = true ∧
    ((releaseTok s t).2.2 = none → (releaseTok s t).2.1.count = s.count - 1) ∧
    ((releaseTok s t).2.2 ≠ none → (releaseTok s t).2.1.count = s.count) ∧
    (s.queue = [] → (releaseTok s t).2.1.count = s.count - 1) ∧
    releaseTok (releaseTok s t).2.1 t = (false, (releaseTok s t).2.1, none) ∧
    (∀ (s0 : Sem) (u : Nat), s0.count = 0 → releaseTok s0 u = (false, s0, none)) := by
  have hlast : ∀ (s0 : Sem) (u : Nat), s0.count = 0 → releaseTok s0 u = (false, s0, none) := by
    intro s0 u h0
    exact releaseTok_noop s0 u (Or.inr (by omega))
  rcases hqq : s.queue with _ | ⟨w1, rest⟩
  · rw [releaseTok_empty s t hrel hpos hqq]
    refine ⟨rfl, fun _ => rfl, fun hne => absurd rfl hne, fun _ => rfl, ?_, hlast⟩
    exact releaseTok_noop _ t (Or.inl (List.mem_cons_self t s.releasedSet))
  · by_cases hlt : s.count - 1 < s.capacity
    · rw [releaseTok_handoff s t w1 rest hrel hpos hqq hlt]
      refine ⟨rfl, by simp, fun _ => by dsimp only; omega,
        fun hq0 => absurd hq0 (List.cons_ne_nil w1 rest), ?_, hlast⟩
      exact releaseTok_noop _ t (Or.inl (List.mem_cons_self t s.releasedSet))
    · rw [releaseTok_full s t w1 rest hrel hpos hqq hlt]
      refine ⟨rfl, fun _ => rfl, fun hne => absurd rfl hne, fun _ => rfl, ?_, hlast⟩
      exact releaseTok_noop _ t (Or.inl (List.mem_cons_self t s.releasedSet))

/-- Witness for the amended C3 on a capacity-1 semaphore holding token 0. -/
theorem c3_release_idempotent_witness :
    (releaseTok (run (initSem 1) [.acq 5]) 0).1 = true ∧
    ((releaseTok (run (initSem 1) [.acq 5]) 0).2.2 = none →
      (releaseTok (run (initSem 1) [.acq 5]) 0).2.1.count = (run (initSem 1) [.acq 5]).count - 1) ∧
    ((releaseTok (run (initSem 1) [.acq 5]) 0).2.2 ≠ none →
      (releaseTok (run (initSem 1) [.acq 5]) 0).2.1.count = (run (initSem 1) [.acq 5]).count) ∧
    ((run (initSem 1) [.acq 5]).queue = [] →
      (releaseTok (run (initSem 1) [.acq 5]) 0).2.1.count = (run (initSem 1) [.acq 5]).count - 1) ∧
    releaseTok (releaseTok (run (initSem 1) [.acq 5]) 0).2.1 0
      = (false, (releaseTok (run (initSem 1) [.acq 5]) 0).2.1, none) ∧
    (∀ (s0 : Sem) (u : Nat), s0.count = 0 → releaseTok s0 u = (false, s0, none)) :=
  c3_release_idempotent (run (initSem 1) [.acq 5]) 0 (by decide) (by decide)

/-- C4: in every reachable state of a constructed semaphore the number of
callers past acquisition and not yet released — each such caller inside
a `use`/`submit` body holds exactly one outstanding token — never
exceeds capacity; with capacity 1 (the Mutex case) at most one body is
in flight, so bodies never overlap, and a TaskPool of concurrency 2
(capacity 2) never has more than 2 tasks in flight. -/
theorem c4_concurrency_bound (q : ℚ) (s : Sem) (ops : List Op)
    (hmk : mkSem q = .ok s) (hwf : wfRun s ops = true) :
    (outstanding (run s ops) : Int) ≤ (run s ops).capacity ∧
    ((run s ops).capacity = 1 → outstanding (run s ops) ≤ 1) := by
  have h := inv_reach q s ops hmk hwf
  obtain ⟨h1, h2, h3, h4, h5, h6, h7, h8⟩ := h
  constructor
  · omega
  · intro hc
    rw [hc] at h3
    omega

/-- Witness for C4 on a capacity-2 semaphore with four acquirers. -/
theorem c4_concurrency_bound_witness :
    (outstanding (run (initSem 2) [.tryAcq, .acq 4, .acq 5, .acq 6]) : Int)
      ≤ (run (initSem 2) [.tryAcq, .acq 4, .acq 5, .acq 6]).capacity ∧
    ((run (initSem 2) [.tryAcq, .acq 4, .acq 5, .acq 6]).capacity = 1 →
      outstanding (run (initSem 2) [.tryAcq, .acq 4, .acq 5, .acq 6]) ≤ 1) :=
  c4_concurrency_bound 2 (initSem 2) [.tryAcq, .acq 4, .acq 5, .acq 6] (by rfl) (by decide)

/-- C8: in every reachable state of a constructed semaphore, `used`
equals the number of outstanding release tokens — tokens issued by
tryAcquire, acquire, or the release hand-off and not yet successfully
released. -/
theorem c8_used_eq_outstanding (q : ℚ) (s : Sem) (ops : List Op)
    (hmk : mkSem q = .ok s) (hwf : wfRun s ops = true) :
    (run s ops).count = (outstanding (run s ops) : Int) :=
  (inv_reach q s ops hmk hwf).2.2.2.2.2.2.2

/-- Witness for C8 on a capacity-3 semaphore after four operations. -/
theorem c8_used_eq_outstanding_witness :
    (run (initSem 3) [.tryAcq, .acq 4, .rel 0, .acq 5]).count
      = (outstanding (run (initSem 3) [.tryAcq, .acq 4, .rel 0, .acq 5]) : Int) :=
  c8_used_eq_outstanding 3 (initSem 3) [.tryAcq, .acq 4, .rel 0, .acq 5] (by rfl) (by decide)

/-- C5: `tryAcquire` succeeds exactly when `used < capacity`; on success
it increments `used` by exactly 1 and returns the fresh token `nextId`,
never issued before and not yet released, without touching the queue; on
failure it returns `none` and the state — counter and queue included —
is exactly unchanged. -/
theorem c5_tryAcquire (s : Sem) (h : Inv s) :
    ((∃ tok, (tryAcquire s).1 = some tok) ↔ s.count < s.capacity) ∧
    (s.count < s.capacity →
      tryAcquire s = (some s.nextId, grantTo s) ∧
      (grantTo s).count = s.count + 1 ∧
      s.nextId ∉ s.issued ∧
      s.nextId ∉ (grantTo s).releasedSet ∧
      (grantTo s).queue = s.queue) ∧
    (¬ s.count < s.capacity → tryAcquire s = (none, s)) := by
  obtain ⟨h1, h2, h3, h4, h5, h6, h7, h8⟩ := h
  have hfi := fresh_not_issued s h6
  have hfr := fresh_not_released s h6 h7
  refine ⟨?_, ?_, ?_⟩
  · unfold tryAcquire
    by_cases hlt : s.count < s.capacity
    · rw [if_pos hlt]
      simpa using hlt
    · rw [if_neg hlt]
      simpa using hlt
  · intro hlt
    have he : tryAcquire s = (some s.nextId, grantTo s) := by
      unfold tryAcquire
      rw [if_pos hlt]
    exact ⟨he, rfl, hfi, hfr, rfl⟩
  · intro hge
    unfold tryAcquire
    rw [if_neg hge]

/-- Witness for C5 at a fresh capacity-2 semaphore. -/
theorem c5_tryAcquire_witness :
    ((∃ tok, (tryAcquire (initSem 2)).1 = some tok) ↔ (initSem 2).count < (initSem 2).capacity) ∧
    ((initSem 2).count < (initSem 2).capacity →
      tryAcquire (initSem 2) = (some (initSem 2).nextId, grantTo (initSem 2)) ∧
      (grantTo (initSem 2)).count = (initSem 2).count + 1 ∧
      (initSem 2).nextId ∉ (initSem 2).issued ∧
      (initSem 2).nextId ∉ (grantTo (initSem 2)).releasedSet ∧
      (grantTo (initSem 2)).queue = (initSem 2).queue) ∧
    (¬ (initSem 2).count < (initSem 2).capacity → tryAcquire (initSem 2) = (none, initSem 2)) :=
  c5_tryAcquire (initSem 2) (by decide)

/-- C10: in every reachable state, a non-empty wait queue forces
`used = capacity`; hence `tryAcquire` returns `none` whenever any
acquirer is queued — it can never take a permit ahead of queued waiters
— and a successful release made while the queue is non-empty hands the
freed slot directly to the head waiter, leaving `used` unchanged. -/
theorem c10_queue_implies_full (q : ℚ) (s : Sem) (ops : List Op)
    (hmk : mkSem q = .ok s) (hwf : wfRun s ops = true) :
    ((run s ops).queue ≠ [] → (run s ops).count = (run s ops).capacity) ∧
    ((run s ops).queue ≠ [] → (tryAcquire (run s ops)).1 = none) ∧
    (∀ t, (run s ops).queue ≠ [] → (releaseTok (run s ops) t).1 = true →
      ∃ w rest tok, (run s ops).queue = w :: rest ∧
        (releaseTok (run s ops) t).2.2 = some (w, tok) ∧
        (releaseTok (run s ops) t).2.1.queue = rest ∧
        (releaseTok (run s ops) t).2.1.count = (run s ops).count) := by
  have h := inv_reach q s ops hmk hwf
  set r := run s ops
  obtain ⟨h1, h2, h3, h4, h5, h6, h7, h8⟩ := h
  refine ⟨h4, ?_, ?_⟩
  · intro hne
    have := h4 hne
    unfold tryAcquire
    rw [if_neg (by omega)]
  · intro t hne hsucc
    by_cases hg : t ∈ r.releasedSet ∨ r.count ≤ 0
    · rw [releaseTok_noop r t hg] at hsucc
      simp at hsucc
    · push_neg at hg
      rcases hqq : r.queue with _ | ⟨w1, rest⟩
      · exact absurd hqq hne
      · have hful := h4 hne
        have hlt : r.count - 1 < r.capacity := by omega
        rw [releaseTok_handoff r t w1 rest hg.1 (by omega) hqq hlt]
        exact ⟨w1, rest, r.nextId, rfl, rfl, rfl, by dsimp only; omega⟩

/-- Witness for C10 at the held capacity-1 semaphore with waiter 7
queued. -/
theorem c10_queue_implies_full_witness :
    ((run (initSem 1) [.acq 5, .acq 7]).queue ≠ [] →
      (run (initSem 1) [.acq 5, .acq 7]).count = (run (initSem 1) [.acq 5, .acq 7]).capacity) ∧
    ((run (initSem 1) [.acq 5, .acq 7]).queue ≠ [] →
      (tryAcquire (run (initSem 1) [.acq 5, .acq 7])).1 = none) ∧
    (∀ t, (run (initSem 1) [.acq 5, .acq 7]).queue ≠ [] →
      (releaseTok (run (initSem 1) [.acq 5, .acq 7]) t).1 = true →
      ∃ w rest tok, (run (initSem 1) [.acq 5, .acq 7]).queue = w :: rest ∧
        (releaseTok (run (initSem 1) [.acq 5, .acq 7]) t).2.2 = some (w, tok) ∧
        (releaseTok (run (initSem 1) [.acq 5, .acq 7]) t).2.1.queue = rest ∧
        (releaseTok (run (initSem 1) [.acq 5, .acq 7]) t).2.1.count
          = (run (initSem 1) [.acq 5, .acq 7]).count) :=
  c10_queue_implies_full 1 (initSem 1) [.acq 5, .acq 7] (by rfl) (by decide)

/-- Unfolding of `use` when a permit is free: the body's outcome is
returned unchanged, the internal release succeeds, and the counter and
capacity return to their pre-call values in an invariant state. -/
theorem useRun_eq {ε α : Type} (s : Sem) (h : Inv s) (hlt : s.count < s.capacity)
    (body : Except ε α) :
    useRun s body = some (body, (releaseTok (grantTo s) s.nextId).2.1) ∧
    (releaseTok (grantTo s) s.nextId).1 = true ∧
    (releaseTok (grantTo s) s.nextId).2.1.count = s.count ∧
    (releaseTok (grantTo s) s.nextId).2.1.capacity = s.capacity ∧
    Inv (releaseTok (grantTo s) s.nextId).2.1 := by
  obtain ⟨h1, h2, h3, h4, h5, h6, h7, h8⟩ := h
  have hInv : Inv s := ⟨h1, h2, h3, h4, h5, h6, h7, h8⟩
  have hq : s.queue = [] := by
    by_contra hne
    have := h4 hne
    omega
  have hfr := fresh_not_released s h6 h7
  have hg1 : acquire s 0 = (.granted s.nextId, grantTo s) := by
    unfold acquire
    rw [if_pos hlt]
  have hq1 : (grantTo s).queue = [] := hq
  have hrel1 : s.nextId ∉ (grantTo s).releasedSet := hfr
  have hpos1 : 0 < (grantTo s).count := by
    show 0 < s.count + 1
    omega
  have hre := releaseTok_empty (grantTo s) s.nextId hrel1 hpos1 hq1
  have hmem1 : s.nextId ∈ (grantTo s).issued := by
    show s.nextId ∈ s.issued ++ [s.nextId]
    simp
  refine ⟨?_, ?_, ?_, ?_, ?_⟩
  · unfold useRun
    rw [hg1]
  · rw [hre]
  · rw [hre]
    show s.count + 1 - 1 = s.count
    omega
  · rw [hre]
    show s.capacity = s.capacity
    rfl
  · exact inv_releaseTok (grantTo s) s.nextId (inv_grantTo s hInv hlt) hmem1

/-- C6: for every operation outcome passed to `use` (with a permit
available in the cooperative single-caller model), `use` completes with
exactly that outcome — a failure propagates unwrapped — and the permit
is released on that exit path: the internal release returns true and the
final `used` equals its pre-call value; and `TaskPool.submit` is exactly
`semaphore.use`. -/
theorem c6_use_releases {ε α : Type} (s : Sem) (h : Inv s) (hlt : s.count < s.capacity)
    (body : Except ε α) :
    (∃ s', useRun s body = some (body, s') ∧ s'.count = s.count) ∧
    (releaseTok (grantTo s) s.nextId).1 = true ∧
    submitRun s body = useRun s body := by
  obtain ⟨hu, ht, hc, _, _⟩ := useRun_eq s h hlt body
  exact ⟨⟨(releaseTok (grantTo s) s.nextId).2.1, hu, hc⟩, ht, rfl⟩

/-- Witness for C6 with a failing operation on a fresh capacity-2
semaphore. -/
theorem c6_use_releases_witness :
    (∃ s', useRun (initSem 2) (Except.error "boom" : Except String Nat) = some (.error "boom", s') ∧
      s'.count = (initSem 2).count) ∧
    (releaseTok (grantTo (initSem 2)) (initSem 2).nextId).1 = true ∧
    submitRun (initSem 2) (Except.error "boom" : Except String Nat)
      = useRun (initSem 2) (Except.error "boom" : Except String Nat) :=
  c6_use_releases (initSem 2) (by decide) (by decide) (Except.error "boom")

/-- `submitAll` completes with the `Promise.all` combination of the task
outcomes and restores the counter, preserving the invariant. -/
theorem submitAll_collect {ε α : Type} (tasks : List (Except ε α)) :
    ∀ s : Sem, Inv s → s.count < s.capacity →
      ∃ s', submitAll s tasks = some (collect tasks, s') ∧ s'.count = s.count ∧
        s'.capacity = s.capacity ∧ Inv s' := by
  induction tasks with
  | nil =>
    intro s h hlt
    exact ⟨s, rfl, rfl, rfl, h⟩
  | cons task rest ih =>
    intro s h hlt
    obtain ⟨hu, _, hc1, hcap1, hInv1⟩ := useRun_eq s h hlt task
    obtain ⟨s2, hs2, hc2, hcap2, hInv2⟩ :=
      ih (releaseTok (grantTo s) s.nextId).2.1 hInv1 (by rw [hc1, hcap1]; exact hlt)
    refine ⟨s2, ?_, by omega, by rw [hcap2, hcap1], hInv2⟩
    show submitAll s (task :: rest) = some (collect (task :: rest), s2)
    unfold submitAll submitRun
    rw [hu]
    dsimp only
    rw [hs2]
    cases task with
    | ok v =>
      cases hcr : collect rest with
      | ok vs => simp [collect, hcr]
      | error e => simp [collect, hcr]
    | error e => simp [collect]

/-- C7: `submitAll` on the empty list returns the empty ordered result
and leaves the state (hence the `tasks` gauge) unchanged; on any task
list it completes with the `Promise.all` combination of the outcomes in
input order, restoring `used`; all-successful tasks yield exactly the
input-ordered value list, and if a task fails (all earlier ones
succeeding) the aggregate fails with exactly that task's error. -/
theorem c7_submitAll {ε α : Type} (s : Sem) (h : Inv s) (hlt : s.count < s.capacity) :
    (submitAll s ([] : List (Except ε α)) = some (.ok [], s)) ∧
    (∀ tasks : List (Except ε α),
      ∃ s', submitAll s tasks = some (collect tasks, s') ∧ s'.count = s.count) ∧
    (∀ vs : List α, collect (vs.map Except.ok) = (.ok vs : Except ε (List α))) ∧
    (∀ (pre : List (Except ε α)) (e : ε) (post : List (Except ε α)),
      (∀ x ∈ pre, ∃ v, x = Except.ok v) →
      collect (pre ++ Except.error e :: post) = .error e) := by
  refine ⟨rfl, ?_, ?_, ?_⟩
  · intro tasks
    obtain ⟨s', hs', hc, _, _⟩ := submitAll_collect tasks s h hlt
    exact ⟨s', hs', hc⟩
  · intro vs
    induction vs with
    | nil => rfl
    | cons v vs ih => simp [collect, ih]
  · intro pre e post hpre
    induction pre with
    | nil => rfl
    | cons x pre ih =>
      obtain ⟨v, hv⟩ := hpre x (List.mem_cons_self x pre)
      subst hv
      have hrec := ih (fun y hy => hpre y (List.mem_cons_of_mem _ hy))
      simp [collect, hrec]

/-- Witness for C7 on a fresh capacity-2 pool. -/
theorem c7_submitAll_witness :
    (submitAll (initSem 2) ([] : List (Except String Nat)) = some (.ok [], initSem 2)) ∧
    (∀ tasks : List (Except String Nat),
      ∃ s', submitAll (initSem 2) tasks = some (collect tasks, s') ∧ s'.count = (initSem 2).count) ∧
    (∀ vs : List Nat, collect (vs.map Except.ok) = (.ok vs : Except String (List Nat))) ∧
    (∀ (pre : List (Except String Nat)) (e : String) (post : List (Except String Nat)),
      (∀ x ∈ pre, ∃ v, x = Except.ok v) →
      collect (pre ++ Except.error e :: post) = .error e) :=
  c7_submitAll (initSem 2) (by decide) (by decide)

/-- C9: construction fails with the invalid-capacity error exactly when
the capacity is not a positive integer (non-positive or with
denominator ≠ 1), and succeeds exactly when it is; a successful
construction starts with `used = 0`, `permits = capacity`, an empty
queue and no tokens; every positive natural capacity succeeds; and the
TaskPool constructor delegates to the semaphore constructor. -/
theorem c9_construction (q : ℚ) :
    ((∃ s, mkSem q = .ok s) ↔ (0 < q ∧ q.den = 1)) ∧
    (mkSem q = .error "Semaphore capacity must be a positive integer" ↔ (q ≤ 0 ∨ q.den ≠ 1)) ∧
    (∀ s, mkSem q = .ok s →
      s = initSem q.num ∧ s.count = 0 ∧ s.capacity = q.num ∧ 1 ≤ q.num ∧
      s.capacity - s.count = s.capacity ∧ s.queue = [] ∧ s.issued = []) ∧
    (∀ n : ℕ, 0 < n → mkSem (n : ℚ) = .ok (initSem (n : ℤ))) ∧
    mkPool q = mkSem q := by
  refine ⟨?_, ?_, ?_, ?_, rfl⟩
  · constructor
    · rintro ⟨s, hs⟩
      exact (mkSem_ok q s hs).1
    · rintro ⟨hq, hden⟩
      refine ⟨initSem q.num, ?_⟩
      unfold mkSem
      rw [if_neg (by push_neg; exact ⟨hq, hden⟩)]
  · constructor
    · intro he
      by_cases hc : q ≤ 0 ∨ q.den ≠ 1
      · exact hc
      · unfold mkSem at he
        rw [if_neg hc] at he
        cases he
    · intro hc
      unfold mkSem
      rw [if_pos hc]
  · intro s hs
    obtain ⟨⟨hq, hden⟩, rfl⟩ := mkSem_ok q s hs
    have hnum : 1 ≤ q.num := by
      have := Rat.num_pos.mpr hq
      omega
    refine ⟨rfl, rfl, rfl, hnum, ?_, rfl, rfl⟩
    show q.num - 0 = q.num
    omega
  · intro n hn
    unfold mkSem
    rw [if_neg (by push_neg; exact ⟨by exact_mod_cast hn, by simp⟩)]
    simp [Rat.num_natCast]

/-- Witness for C9 at capacities 2 and 3. -/
theorem c9_construction_witness :
    (initSem 2 = initSem (2:ℚ).num ∧ (initSem 2).count = 0 ∧
      (initSem 2).capacity = (2:ℚ).num ∧ 1 ≤ (2:ℚ).num ∧
      (initSem 2).capacity - (initSem 2).count = (initSem 2).capacity ∧
      (initSem 2).queue = [] ∧ (initSem 2).issued = []) ∧
    mkSem ((3:ℕ) : ℚ) = .ok (initSem ((3:ℕ) : ℤ)) :=
  ⟨(c9_construction 2).2.2.1 (initSem 2) (by rfl),
   (c9_construction 2).2.2.2.1 3 (by decide)⟩

end MoonAsync
